import Mathlib

/-!
Shallow embedding of the batch-inventory / FEFO point-of-sale core of the
repository, together with theorems settling the frozen claims.

Two implementations coexist in the source and are both embedded here:

* `src/store/pharmacyStore.ts` — a local (zustand) store whose `addSale`
  performs FEFO allocation and batch deduction synchronously on an in-memory
  batch list (namespace `Store`);
* `src/hooks/useSales.ts` / `useProducts` — the Supabase-backed hooks whose
  `processSale` allocates against a snapshot provided by
  `getAvailableBatches` and then persists sale, sale items and batch updates
  as separate, non-transactional writes (namespace `Hook`).

Modelling conventions:
* ISO date strings are modelled as `Nat` day indices (both the string
  comparison `expiry_date >= today` of the hook and the
  `parseISO`/`isBefore` comparison of the store are order-isomorphic to the
  numeric order on valid ISO dates);
* timestamps for the return window are `Nat` seconds;
* quantities are `Int` (JS numbers used as integers; `Int` rather than `Nat`
  so that negative stock — which some operations can produce — is
  representable);
* money amounts are `ℚ`;
* record identifiers are `String`; fresh ids (`generateId`, DB uuids) are
  passed in as parameters.
-/

namespace OMS

/-- A batch deduction record `{batchId, batchNumber, quantity, expiryDate}`
(`BatchDeduction` in `types/pharmacy.ts`, snake_cased in the hooks). -/
structure BatchDeduction where
  batchId : String
  batchNumber : String
  quantity : Int
  expiryDate : Nat
deriving DecidableEq, Repr

namespace Store

/-- `StockBatch` from `types/pharmacy.ts`. -/
structure StockBatch where
  id : String
  productId : String
  batchNumber : String
  quantity : Int
  costPrice : ℚ
  sellingPrice : ℚ
  expiryDate : Nat
  purchaseDate : Nat
  supplier : String
deriving DecidableEq, Repr

/-- `Product` from `types/pharmacy.ts` (fields irrelevant to the claims
omitted beyond identity and name). -/
structure Product where
  id : String
  name : String
  barcode : String
deriving DecidableEq, Repr

/-- `SaleItem` from `types/pharmacy.ts`; `batchDeductions` is optional in TS
and modelled with `[]` as the absent value. -/
structure SaleItem where
  productId : String
  productName : String
  quantity : Int
  unitPrice : ℚ
  total : ℚ
  batchDeductions : List BatchDeduction
deriving DecidableEq, Repr

/-- `Sale` from `types/pharmacy.ts`. -/
structure Sale where
  id : String
  items : List SaleItem
  total : ℚ
  paymentMethod : String
  createdAt : Nat
deriving DecidableEq, Repr

/-- `StockPurchase` from `types/pharmacy.ts`. -/
structure StockPurchase where
  id : String
  productId : String
  productName : String
  batchNumber : String
  quantity : Int
  costPrice : ℚ
  sellingPrice : ℚ
  total : ℚ
  supplier : String
  expiryDate : Nat
  purchaseDate : Nat
deriving DecidableEq, Repr

/-- The mutable state of the zustand store (`PharmacyStore`). -/
structure State where
  products : List Product
  sales : List Sale
  stockPurchases : List StockPurchase
  stockBatches : List StockBatch
deriving DecidableEq, Repr

/-- Sum of the `quantity` fields of a batch list. -/
def sumQty (l : List StockBatch) : Int :=
  (l.map (·.quantity)).sum

/-- Sum of the `quantity` fields of a deduction list. -/
def sumDed (l : List BatchDeduction) : Int :=
  (l.map (·.quantity)).sum

/-- The FEFO comparator: ascending `expiryDate`
(`sort((a, b) => parseISO(a.expiryDate).getTime() - parseISO(b.expiryDate).getTime())`). -/
def sortByExpiry (l : List StockBatch) : List StockBatch :=
  l.insertionSort (fun a b => a.expiryDate ≤ b.expiryDate)

/-- The filter shared by `getAvailableBatches` and the allocation loop of
`addSale`: same product, `quantity > 0`, not expired (`expiryDate >= today`). -/
def isAvailable (pid : String) (today : Nat) (b : StockBatch) : Bool :=
  b.productId == pid && decide (0 < b.quantity) && decide (today ≤ b.expiryDate)

/-- `getAvailableBatches(productId)`: the available batches of a product,
FEFO-sorted. -/
def getAvailableBatches (batches : List StockBatch) (pid : String) (today : Nat) :
    List StockBatch :=
  sortByExpiry (batches.filter (isAvailable pid today))

/-- `getProductStock(productId)`: the store sums `quantity` over the batches
of the product that are not expired; note the source applies no
`quantity > 0` filter here. -/
def getProductStock (batches : List StockBatch) (pid : String) (today : Nat) : Int :=
  ((batches.filter (fun b => b.productId == pid && decide (today ≤ b.expiryDate))).map
    (·.quantity)).sum

/-- Modelled from the spec: `availableQuantity(productId)` as §4.1 words it —
"sum of `quantity` over all batches of the product where `quantity > 0` and
`expiryDate >= today`". Kept separate from `getProductStock` so the two can
be compared. -/
def specAvailableQuantity (batches : List StockBatch) (pid : String) (today : Nat) : Int :=
  ((batches.filter (isAvailable pid today)).map (·.quantity)).sum

/-- Decrement the quantity of the first batch whose id is `bid` by `d`
(`findIndex` followed by the spread-update in `addSale`). If no batch
matches, the list is returned unchanged (unreachable in `addSale`, where
every allocated batch is drawn from the list itself). -/
def decQty : List StockBatch → String → Int → List StockBatch
  | [], _, _ => []
  | b :: bs, bid, d =>
    if b.id == bid then { b with quantity := b.quantity - d } :: bs
    else b :: decQty bs bid d

/-- The inner FEFO deduction loop of `addSale`: walk the available batches,
deduct `min(batch.quantity, remainingQty)` from each until the request is
met, recording one `BatchDeduction` per visited batch, and thread the
updated batch list through. -/
def deductLoop : List StockBatch → Int → List StockBatch →
    List StockBatch × List BatchDeduction
  | [], _, updated => (updated, [])
  | b :: rest, remaining, updated =>
    if remaining ≤ 0 then (updated, [])
    else
      let d := min b.quantity remaining
      let res := deductLoop rest (remaining - d) (decQty updated b.id d)
      (res.1,
        { batchId := b.id, batchNumber := b.batchNumber, quantity := d,
          expiryDate := b.expiryDate } :: res.2)

/-- The insufficient-stock failure of `addSale`, carrying the data of the
error message `Insufficient stock for NAME. Available: A, Required: R`. -/
structure StockFailure where
  productName : String
  available : Int
  required : Int
deriving DecidableEq, Repr

/-- The validation-and-allocation loop of `addSale`: for each item filter and
FEFO-sort the current (already partially deducted) batch list, fail if the
available total is below the requested quantity, otherwise deduct and
continue with the updated list. -/
def processItems (today : Nat) :
    List SaleItem → List StockBatch →
    Except StockFailure (List StockBatch × List SaleItem)
  | [], updated => .ok (updated, [])
  | item :: rest, updated =>
    let avail := sortByExpiry (updated.filter (isAvailable item.productId today))
    let tot := sumQty avail
    if tot < item.quantity then
      .error { productName := item.productName, available := tot,
               required := item.quantity }
    else
      let r := deductLoop avail item.quantity updated
      match processItems today rest r.1 with
      | .error e => .error e
      | .ok res => .ok (res.1, { item with batchDeductions := r.2 } :: res.2)

/-- Result record of `addSale` (`{ success, error?, saleId? }`). -/
structure AddSaleResult where
  success : Bool
  error : Option StockFailure
  saleId : Option String
deriving DecidableEq, Repr

/-- `addSale(items, paymentMethod, discount)`: validate and allocate every
item against the threaded batch list; on any failure return the error with
the state untouched (the single `set` call is only reached on success); on
success append the sale and install the deducted batch list. The fresh sale
id (`generateId()`) and timestamp are parameters. -/
def addSale (st : State) (items : List SaleItem) (paymentMethod : String)
    (discount : ℚ) (today : Nat) (newSaleId : String) (createdAt : Nat) :
    AddSaleResult × State :=
  match processItems today items st.stockBatches with
  | .error e => ({ success := false, error := some e, saleId := none }, st)
  | .ok r =>
    let subtotal := (items.map (·.total)).sum
    let discountValue := if 0 < discount then subtotal * discount / 100 else 0
    let finalTotal := subtotal - discountValue
    let sale : Sale :=
      { id := newSaleId, items := r.2, total := finalTotal,
        paymentMethod := paymentMethod, createdAt := createdAt }
    ({ success := true, error := none, saleId := some newSaleId },
     { st with sales := st.sales ++ [sale], stockBatches := r.1 })

/-- `deleteProduct(id)`: removes the product and all of its batches. -/
def deleteProduct (st : State) (pid : String) : State :=
  { st with
    products := st.products.filter (fun p => p.id != pid),
    stockBatches := st.stockBatches.filter (fun b => b.productId != pid) }

/-- `addStockPurchase(purchase)`: appends the purchase and a new batch
holding the purchased quantity. Fresh ids are parameters. -/
def addStockPurchase (st : State) (purchase : StockPurchase)
    (newBatchId newPurchaseId : String) : State :=
  let newBatch : StockBatch :=
    { id := newBatchId, productId := purchase.productId,
      batchNumber := purchase.batchNumber, quantity := purchase.quantity,
      costPrice := purchase.costPrice, sellingPrice := purchase.sellingPrice,
      expiryDate := purchase.expiryDate, purchaseDate := purchase.purchaseDate,
      supplier := purchase.supplier }
  { st with
    stockPurchases := st.stockPurchases ++ [{ purchase with id := newPurchaseId }],
    stockBatches := st.stockBatches ++ [newBatch] }

end Store

namespace Hook

/-- `StockBatch` as the Supabase hooks see it (`useProducts`). -/
structure HBatch where
  id : String
  product_id : String
  batch_number : String
  quantity : Int
  cost_price : ℚ
  selling_price : ℚ
  expiry_date : Nat
deriving DecidableEq, Repr

/-- `Product` rows as the hook caches them (fields relevant to the claims). -/
structure HProduct where
  id : String
  name : String
  is_active : Bool
deriving DecidableEq, Repr

/-- A cart line (`CartItem` in `useSales.ts`). -/
structure CartItem where
  product_id : String
  product_name : String
  quantity : Int
  unit_price : ℚ
  total : ℚ
deriving DecidableEq, Repr

/-- A `sales` row. The sequential part of the receipt number is kept as a
`Nat`; `db.sales` is kept newest-first, mirroring the
`order by created_at desc` read used to compute the next number. -/
structure SaleRow where
  id : String
  receipt : Nat
  total : ℚ
  payment : String
deriving DecidableEq, Repr

/-- A `sale_items` row. -/
structure SaleItemRow where
  sale_id : String
  product_id : String
  product_name : String
  quantity : Int
  unit_price : ℚ
  total : ℚ
  batch_deductions : List BatchDeduction
deriving DecidableEq, Repr

/-- The durable store reachable through Supabase, restricted to the tables
`processSale` touches. -/
structure DB where
  sales : List SaleRow
  saleItems : List SaleItemRow
  batches : List HBatch
deriving DecidableEq, Repr

/-- Outcome of each persistence call made by `processSale`. A `false` at
`saleInsertOk`/`itemsInsertOk` makes the corresponding insert throw (caught
by the surrounding `try`); a `false` at `batchFetchOk` makes the batch
quantity read return null (its error is ignored by the source, which then
skips all updates); `updateOk i` decides whether the `i`-th batch update
write lands (update errors are discarded by the source). -/
structure Oracle where
  saleInsertOk : Bool
  itemsInsertOk : Bool
  batchFetchOk : Bool
  updateOk : Nat → Bool

/-- The oracle under which every persistence call succeeds. -/
def Oracle.allOk : Oracle :=
  { saleInsertOk := true, itemsInsertOk := true, batchFetchOk := true,
    updateOk := fun _ => true }

/-- The failure cases `processSale` (and the POS checkout handler) can
report. -/
inductive SaleErr where
  | emptyCart : SaleErr
  | invalidItem : SaleErr
  | insufficientStock (productName : String) (available : Int) : SaleErr
  | persistence : SaleErr
deriving DecidableEq, Repr

/-- A cart line together with its computed FEFO deduction plan
(the `itemsWithDeductions` entries of `processSale`). -/
structure ItemD where
  product_id : String
  product_name : String
  quantity : Int
  unit_price : ℚ
  total : ℚ
  batch_deductions : List BatchDeduction
deriving DecidableEq, Repr

/-- Sum of the `quantity` fields of a hook batch list
(`reduce((sum, b) => sum + (b?.quantity || 0), 0)`). -/
def sumQtyH (l : List HBatch) : Int :=
  (l.map (·.quantity)).sum

/-- The FEFO plan loop of `processSale`: walk the snapshot, skip batches
contributing nothing (`if (deductQty <= 0) continue`), stop once the request
is met. Unlike the store's `addSale` this produces only the plan — batch
quantities are written later, at commit time. -/
def fefoPlan : List HBatch → Int → List BatchDeduction
  | [], _ => []
  | b :: rest, remaining =>
    if remaining ≤ 0 then []
    else
      let d := min b.quantity remaining
      if d ≤ 0 then fefoPlan rest remaining
      else
        { batchId := b.id, batchNumber := b.batch_number, quantity := d,
          expiryDate := b.expiry_date } :: fefoPlan rest (remaining - d)

/-- Validation plus allocation for one cart line: reject items with a falsy
product id or name, reject when the snapshot total is below the request
(reporting the available total), otherwise attach the FEFO plan. -/
def allocLine (gab : String → List HBatch) (item : CartItem) :
    Except SaleErr ItemD :=
  if item.product_id == "" || item.product_name == "" then .error .invalidItem
  else
    let avail := gab item.product_id
    let tot := sumQtyH avail
    if tot < item.quantity then
      .error (.insufficientStock item.product_name tot)
    else
      .ok { product_id := item.product_id, product_name := item.product_name,
            quantity := item.quantity, unit_price := item.unit_price,
            total := item.total, batch_deductions := fefoPlan avail item.quantity }

/-- The first (pure) phase of `processSale`: allocate every line against the
same snapshot function, stopping at the first failure. -/
def allocAll (gab : String → List HBatch) :
    List CartItem → Except SaleErr (List ItemD)
  | [] => .ok []
  | item :: rest =>
    match allocLine gab item with
    | .error e => .error e
    | .ok d =>
      match allocAll gab rest with
      | .error e => .error e
      | .ok ds => .ok (d :: ds)

/-- `HH-` receipt numbering: read the most recent receipt and add one,
defaulting to 1 (`nextNum`). -/
def nextReceipt (sales : List SaleRow) : Nat :=
  match sales with
  | [] => 1
  | s :: _ => s.receipt + 1

/-- The quantity the commit-time fetch reports for a batch id
(`batchMap.get(deduction.batch_id) || 0`). -/
def lookupQty (batches : List HBatch) (bid : String) : Int :=
  match batches.find? (fun b => b.id == bid) with
  | some b => b.quantity
  | none => 0

/-- The batch updates `processSale` builds: one `(id, newQuantity)` pair per
deduction, each computed as fetched-quantity minus the planned deduction —
a read-then-write, not a conditional decrement. -/
def buildUpdates (itemsD : List ItemD) (fetched : List HBatch) :
    List (String × Int) :=
  (itemsD.map (fun it =>
    it.batch_deductions.map (fun d =>
      (d.batchId, lookupQty fetched d.batchId - d.quantity)))).flatten

/-- Overwrite the quantity of every batch whose id matches (the
`update({quantity}).eq('id', ...)` write). -/
def setQty (batches : List HBatch) (bid : String) (q : Int) : List HBatch :=
  batches.map (fun b => if b.id == bid then { b with quantity := q } else b)

/-- Apply the update writes in order; a failed write (per the oracle) is
silently skipped, as the source discards update errors. -/
def applyUpdates (batches : List HBatch) :
    List (String × Int) → (Nat → Bool) → Nat → List HBatch
  | [], _, _ => batches
  | u :: rest, ok, idx =>
    applyUpdates (if ok idx then setQty batches u.1 u.2 else batches) rest ok (idx + 1)

/-- `processSale(items, paymentMethod, getAvailableBatches)` against durable
state `db` under persistence oracle `o`. Phase 1 validates and allocates
every line (pure, no writes). Phase 2 then performs, in order and without a
transaction: the `sales` insert, the `sale_items` insert, the batch-quantity
fetch, and the per-deduction quantity writes. An insert failure aborts with
`persistence` but leaves the earlier writes in place; fetch and update
failures are swallowed and the call still reports success. -/
def processSale (items : List CartItem) (paymentMethod : String)
    (gab : String → List HBatch) (db : DB) (o : Oracle) (newSaleId : String) :
    Option SaleErr × DB :=
  match allocAll gab items with
  | .error e => (some e, db)
  | .ok itemsD =>
    let receipt := nextReceipt db.sales
    let total := (items.map (·.total)).sum
    if o.saleInsertOk = false then (some .persistence, db)
    else
      let db1 : DB :=
        { db with sales :=
            { id := newSaleId, receipt := receipt, total := total,
              payment := paymentMethod } :: db.sales }
      if o.itemsInsertOk = false then (some .persistence, db1)
      else
        let rows := itemsD.map (fun it =>
          ({ sale_id := newSaleId, product_id := it.product_id,
             product_name := it.product_name, quantity := it.quantity,
             unit_price := it.unit_price, total := it.total,
             batch_deductions := it.batch_deductions } : SaleItemRow))
        let db2 : DB := { db1 with saleItems := db1.saleItems ++ rows }
        if o.batchFetchOk = false then (none, db2)
        else
          let updates := buildUpdates itemsD db2.batches
          (none, { db2 with batches := applyUpdates db2.batches updates o.updateOk 0 })

/-- The POS checkout handler (`handleFinalizeOrder` in `PointOfSale.tsx`):
an empty cart is rejected before `processSale` is ever invoked. -/
def handleFinalizeOrder (cart : List CartItem) (paymentMethod : String)
    (gab : String → List HBatch) (db : DB) (o : Oracle) (newSaleId : String) :
    Option SaleErr × DB :=
  if cart.isEmpty then (some .emptyCart, db)
  else processSale cart paymentMethod gab db o newSaleId

/-- `getProductStock(productId)` of `useProducts`: sum of `quantity` over the
product's batches with `expiry_date >= today`; as in the store, no
`quantity > 0` filter is applied. -/
def getProductStock (batches : List HBatch) (pid : String) (today : Nat) : Int :=
  ((batches.filter (fun b => b.product_id == pid && decide (today ≤ b.expiry_date))).map
    (·.quantity)).sum

/-- The availability filter of the hook's `getAvailableBatches`. -/
def isAvailableH (pid : String) (today : Nat) (b : HBatch) : Bool :=
  b.product_id == pid && decide (0 < b.quantity) && decide (today ≤ b.expiry_date)

/-- `getAvailableBatches(productId)` of `useProducts`: available batches
sorted ascending by `expiry_date` (string compare on ISO dates). -/
def getAvailableBatches (batches : List HBatch) (pid : String) (today : Nat) :
    List HBatch :=
  (batches.filter (isAvailableH pid today)).insertionSort
    (fun a b => a.expiry_date ≤ b.expiry_date)

/-- `updateBatchQuantity(batchId, newQuantity)`: overwrites the stored
quantity with the given value, with no validation of any kind. -/
def updateBatchQuantity (batches : List HBatch) (bid : String) (newQuantity : Int) :
    List HBatch :=
  batches.map (fun b => if b.id == bid then { b with quantity := newQuantity } else b)

/-- `disableProduct(id)`: sets `is_active` to false on the matching row; the
product stays in the collection. -/
def disableProduct (products : List HProduct) (pid : String) : List HProduct :=
  products.map (fun p => if p.id == pid then { p with is_active := false } else p)

end Hook

namespace Ret

/-- A `return_items` row (fields the reconciliation uses). -/
structure ReturnItemRow where
  sale_item_id : String
  quantity : Int
deriving DecidableEq, Repr

/-- A `sales_returns` row with its items. -/
structure ReturnRow where
  items : List ReturnItemRow
deriving DecidableEq, Repr

/-- A sale item as the return screen sees it. -/
structure SaleItemView where
  id : String
  quantity : Int
deriving DecidableEq, Repr

/-- `differenceInHours` of date-fns on second-resolution timestamps: the
number of *full* hours elapsed (truncated). -/
def differenceInHours (now createdAt : Nat) : Nat :=
  (now - createdAt) / 3600

/-- `handleFindSale` eligibility: the receipt is expired iff strictly more
than 48 full hours have elapsed (`hoursSinceSale > 48`). -/
def isReturnExpired (now createdAt : Nat) : Bool :=
  decide (48 < differenceInHours now createdAt)

/-- A return is eligible iff the sale is not expired. -/
def isReturnEligible (now createdAt : Nat) : Bool :=
  !(isReturnExpired now createdAt)

/-- `getReturnedQuantity(saleItemId)`: total quantity in prior return items
referencing the sale item. -/
def getReturnedQuantity (returns : List ReturnRow) (saleItemId : String) : Int :=
  (returns.map (fun r =>
    ((r.items.filter (fun it => it.sale_item_id == saleItemId)).map (·.quantity)).sum)).sum

/-- `setReturnSelection(prev => ({...prev, [item.id]: val}))`: replace or add
the entry for the key. -/
def setSelection (sel : List (String × Int)) (sid : String) (val : Int) :
    List (String × Int) :=
  (sid, val) :: sel.filter (fun p => p.1 != sid)

/-- The guarded `onChange` of the return-quantity input: negative values and
values above `maxReturn = item.quantity - alreadyReturned` are refused (the
selection is left unchanged); in-range values are stored. -/
def updateReturnSelection (returns : List ReturnRow) (sel : List (String × Int))
    (item : SaleItemView) (val : Int) : List (String × Int) :=
  let maxReturn := item.quantity - getReturnedQuantity returns item.id
  if val < 0 then sel
  else if maxReturn < val then sel
  else setSelection sel item.id val

/-- `handleReturnSubmit`: build the return lines from the selection, dropping
entries whose sale item cannot be found and entries with `qty <= 0`. -/
def buildReturnItems (saleItems : List SaleItemView) (sel : List (String × Int)) :
    List ReturnItemRow :=
  sel.filterMap (fun p =>
    match saleItems.find? (fun it => it.id == p.1) with
    | none => none
    | some _ =>
      if (p.2 : Int) ≤ 0 then none
      else some ({ sale_item_id := p.1, quantity := p.2 } : ReturnItemRow))

/-- `processReturn` persists the built return record (it performs no
validation of its own). -/
def commitReturn (returns : List ReturnRow) (saleItems : List SaleItemView)
    (sel : List (String × Int)) : List ReturnRow :=
  { items := buildReturnItems saleItems sel } :: returns

/-- Every selection entry is within the remaining returnable quantity of an
actual sale item — the property the guarded input maintains. -/
def ValidSelection (saleItems : List SaleItemView) (returns : List ReturnRow)
    (sel : List (String × Int)) : Prop :=
  ∀ p ∈ sel, ∃ it ∈ saleItems,
    it.id = p.1 ∧ p.2 ≤ it.quantity - getReturnedQuantity returns it.id

end Ret

namespace Report

/-- `getCostPrice(productId, batchDeductions)` in `SalesReport`: the cost
price of the batch named by the *first* deduction, 0 when the plan is empty,
the first batch id is falsy, or the batch is not in the cache (`|| 0` also
maps a stored cost of 0 to 0, which is the same value). -/
def getCostPrice (batches : List Hook.HBatch) (deds : List BatchDeduction) : ℚ :=
  match deds with
  | [] => 0
  | d :: _ =>
    if d.batchId == "" then 0
    else
      match batches.find? (fun b => b.id == d.batchId) with
      | some b => b.cost_price
      | none => 0

/-- `calculateItemProfit(item) = (unit_price - costPrice) * quantity`. -/
def calculateItemProfit (batches : List Hook.HBatch) (item : Hook.SaleItemRow) : ℚ :=
  (item.unit_price - getCostPrice batches item.batch_deductions) * (item.quantity : ℚ)

end Report

/-! ### Helper lemmas -/

/-- Summing a mapped quantity over a filter is unchanged by additionally
requiring the quantity to be positive, provided no quantity is negative. -/
theorem sum_filter_and_pos {α : Type} (P : α → Bool) (f : α → Int) :
    ∀ l : List α, (∀ a ∈ l, 0 ≤ f a) →
      ((l.filter P).map f).sum
        = ((l.filter (fun a => P a && decide (0 < f a))).map f).sum := by
  intro l
  induction l with
  | nil => intro _; rfl
  | cons a t ih =>
    intro h
    have ha : 0 ≤ f a := h a (by simp)
    have ht : ∀ x ∈ t, 0 ≤ f x := fun x hx => h x (by simp [hx])
    by_cases hP : P a = true
    · by_cases h0 : (0 : Int) < f a
      · simp [List.filter_cons, hP, h0, ih ht]
      · have hfa : f a = 0 := le_antisymm (not_lt.mp h0) ha
        simp [List.filter_cons, hP, h0, ih ht, hfa]
    · simp [List.filter_cons, hP, ih ht]

/-- With pairwise-distinct keys, `find?` at an element's own key returns that
element. -/
theorem find?_eq_self_of_nodup {α : Type} (f : α → String) (l : List α) (a : α)
    (hnd : (l.map f).Nodup) (ha : a ∈ l) :
    l.find? (fun x => f x == f a) = some a := by
  induction l with
  | nil => cases ha
  | cons b t ih =>
    rcases List.mem_cons.mp ha with hba | hat
    · subst hba
      simp [List.find?]
    · have hnd1 : f b ∉ t.map f := (List.nodup_cons.mp hnd).1
      have hne : f b ≠ f a := by
        intro hEq
        exact hnd1 (hEq ▸ List.mem_map_of_mem f hat)
      have : (f b == f a) = false := beq_eq_false_iff_ne.mpr hne
      simp [List.find?, this]
      exact ih (List.nodup_cons.mp hnd).2 hat

/-- With pairwise-distinct keys, two members with the same key are equal. -/
theorem mem_eq_of_nodup_key {α : Type} (f : α → String) (l : List α) (a b : α)
    (hnd : (l.map f).Nodup) (ha : a ∈ l) (hb : b ∈ l) (hk : f a = f b) : a = b := by
  have h1 := find?_eq_self_of_nodup f l a hnd ha
  have h2 := find?_eq_self_of_nodup f l b hnd hb
  rw [hk] at h1
  rw [h1] at h2
  exact Option.some.inj h2

namespace Store

/-- Membership is invariant under the FEFO sort. -/
theorem mem_sortByExpiry (l : List StockBatch) (b : StockBatch) :
    b ∈ sortByExpiry l ↔ b ∈ l :=
  (List.perm_insertionSort _ l).mem_iff

/-- The quantity total is invariant under the FEFO sort. -/
theorem sumQty_sortByExpiry (l : List StockBatch) :
    sumQty (sortByExpiry l) = sumQty l :=
  List.Perm.sum_eq ((List.perm_insertionSort _ l).map (·.quantity))

/-- Distinctness of batch ids survives the FEFO sort. -/
theorem nodup_ids_sortByExpiry (l : List StockBatch)
    (h : (l.map (·.id)).Nodup) : ((sortByExpiry l).map (·.id)).Nodup :=
  (((List.perm_insertionSort _ l).map (·.id)).nodup_iff).mpr h

/-- Distinctness of batch ids survives filtering. -/
theorem nodup_ids_filter (l : List StockBatch) (p : StockBatch → Bool)
    (h : (l.map (·.id)).Nodup) : ((l.filter p).map (·.id)).Nodup :=
  List.Nodup.sublist ((List.filter_sublist l).map (·.id)) h

/-- `decQty` does not change the id sequence. -/
theorem decQty_map_id (l : List StockBatch) (bid : String) (d : Int) :
    (decQty l bid d).map (·.id) = l.map (·.id) := by
  induction l with
  | nil => rfl
  | cons b t ih =>
    by_cases h : (b.id == bid) = true
    · simp [decQty, h]
    · simp [decQty, h, ih]

/-- `decQty` at one id leaves `find?` at any other id unchanged. -/
theorem find?_decQty_ne (l : List StockBatch) (bid sid : String) (d : Int)
    (h : bid ≠ sid) :
    (decQty l bid d).find? (fun x => x.id == sid)
      = l.find? (fun x => x.id == sid) := by
  induction l with
  | nil => rfl
  | cons b t ih =>
    by_cases hb : (b.id == bid) = true
    · have hbid : b.id = bid := eq_of_beq hb
      have hne : (b.id == sid) = false := beq_eq_false_iff_ne.mpr (hbid ▸ h)
      simp [decQty, hb, List.find?, hne]
    · by_cases hs : (b.id == sid) = true
      · simp [decQty, hb, List.find?, hs]
      · simp [decQty, hb, List.find?, hs, ih]

/-- `decQty` keeps all quantities non-negative provided the batch found at
the decremented id holds at least the decrement. -/
theorem decQty_nonneg (l : List StockBatch) (bid : String) (d : Int)
    (h : ∀ b ∈ l, 0 ≤ b.quantity)
    (hd : ∀ b, l.find? (fun x => x.id == bid) = some b → d ≤ b.quantity) :
    ∀ b ∈ decQty l bid d, 0 ≤ b.quantity := by
  induction l with
  | nil => intro b hb; cases hb
  | cons c t ih =>
    by_cases hc : (c.id == bid) = true
    · have hfind : (c :: t).find? (fun x => x.id == bid) = some c := by
        simp [List.find?, hc]
      have hdc : d ≤ c.quantity := hd c hfind
      intro b hb
      simp only [decQty, hc, if_pos] at hb
      rcases List.mem_cons.mp hb with hbc | hbt
      · subst hbc
        have := h c (by simp)
        simp only []
        omega
      · exact h b (by simp [hbt])
    · intro b hb
      simp only [decQty, hc, if_neg] at hb
      rcases List.mem_cons.mp hb with hbc | hbt
      · subst hbc; exact h b (by simp)
      · have ht : ∀ x ∈ t, 0 ≤ x.quantity := fun x hx => h x (by simp [hx])
        have hdt : ∀ x, t.find? (fun y => y.id == bid) = some x → d ≤ x.quantity := by
          intro x hx
          refine hd x ?_
          simp [List.find?, hc, hx]
        exact ih ht hdt b hbt

/-- Core invariant of the `addSale` deduction loop: starting from a
non-negative batch list, with the walked batches having distinct ids each of
which `find?`s to itself, the final list is still non-negative and its id
sequence is unchanged. -/
theorem deductLoop_nonneg :
    ∀ (avail : List StockBatch) (q : Int) (updated : List StockBatch),
      (∀ b ∈ updated, 0 ≤ b.quantity) →
      ((avail.map (·.id)).Nodup) →
      (∀ b ∈ avail, updated.find? (fun x => x.id == b.id) = some b) →
      (∀ b ∈ (deductLoop avail q updated).1, 0 ≤ b.quantity)
        ∧ ((deductLoop avail q updated).1.map (·.id) = updated.map (·.id)) := by
  intro avail
  induction avail with
  | nil =>
    intro q updated h _ _
    simp only [deductLoop]
    exact ⟨h, by trivial⟩
  | cons b rest ih =>
    intro q updated h hnd hfind
    by_cases hq : q ≤ 0
    · simp only [deductLoop, if_pos hq]
      exact ⟨h, by trivial⟩
    · simp only [deductLoop, if_neg hq]
      have hb0 : 0 ≤ b.quantity := by
        have hmem : b ∈ updated := by
          have := hfind b (by simp)
          exact List.mem_of_find?_eq_some this
        exact h b hmem
      have hfb : updated.find? (fun x => x.id == b.id) = some b := hfind b (by simp)
      have hd : min b.quantity q ≤ b.quantity := min_le_left _ _
      have h1 : ∀ x ∈ decQty updated b.id (min b.quantity q), 0 ≤ x.quantity := by
        refine decQty_nonneg updated b.id (min b.quantity q) h ?_
        intro x hx
        rw [hfb] at hx
        cases hx
        exact hd
      have hnd2 : ((rest.map (·.id)).Nodup) := (List.nodup_cons.mp hnd).2
      have hbid : b.id ∉ rest.map (·.id) := (List.nodup_cons.mp hnd).1
      have hfind2 : ∀ x ∈ rest,
          (decQty updated b.id (min b.quantity q)).find? (fun y => y.id == x.id)
            = some x := by
        intro x hx
        have hne : b.id ≠ x.id := by
          intro hEq
          exact hbid (hEq ▸ List.mem_map_of_mem (·.id) hx)
        rw [find?_decQty_ne updated b.id x.id (min b.quantity q) hne]
        exact hfind x (by simp [hx])
      have := ih (q - min b.quantity q) (decQty updated b.id (min b.quantity q)) h1 hnd2 hfind2
      refine ⟨this.1, ?_⟩
      rw [this.2, decQty_map_id]

/-- The per-item loop of `addSale` preserves non-negativity and the id
sequence of the batch list. -/
theorem processItems_nonneg (today : Nat) :
    ∀ (items : List SaleItem) (updated : List StockBatch),
      (∀ b ∈ updated, 0 ≤ b.quantity) →
      ((updated.map (·.id)).Nodup) →
      ∀ r, processItems today items updated = .ok r →
        (∀ b ∈ r.1, 0 ≤ b.quantity) ∧ (r.1.map (·.id) = updated.map (·.id)) := by
  intro items
  induction items with
  | nil =>
    intro updated h _ r hr
    cases hr
    exact ⟨h, rfl⟩
  | cons item rest ih =>
    intro updated h hnd r hr
    simp only [processItems] at hr
    by_cases hshort :
        sumQty (sortByExpiry (updated.filter (isAvailable item.productId today)))
          < item.quantity
    · rw [if_pos hshort] at hr
      cases hr
    · rw [if_neg hshort] at hr
      set avail := sortByExpiry (updated.filter (isAvailable item.productId today)) with havail
      have hndA : ((avail.map (·.id)).Nodup) :=
        nodup_ids_sortByExpiry _ (nodup_ids_filter updated _ hnd)
      have hfindA : ∀ b ∈ avail, updated.find? (fun x => x.id == b.id) = some b := by
        intro b hb
        have hbu : b ∈ updated :=
          (List.mem_filter.mp ((mem_sortByExpiry _ b).mp hb)).1
        exact find?_eq_self_of_nodup (·.id) updated b hnd hbu
      have hloop := deductLoop_nonneg avail item.quantity updated h hndA hfindA
      set upd2 := (deductLoop avail item.quantity updated).1 with hupd2
      have hnd3 : ((upd2.map (·.id)).Nodup) := by rw [hloop.2]; exact hnd
      cases hrec : processItems today rest upd2 with
      | error e => rw [hrec] at hr; cases hr
      | ok res =>
        rw [hrec] at hr
        cases hr
        have := ih upd2 hloop.1 hnd3 res hrec
        exact ⟨this.1, by rw [this.2, hloop.2]⟩

/-- Quantity totals of all-positive lists are non-negative. -/
theorem sumQty_nonneg (l : List StockBatch) (h : ∀ b ∈ l, 0 < b.quantity) :
    0 ≤ sumQty l := by
  induction l with
  | nil => simp [sumQty]
  | cons b t ih =>
    have hb := h b (by simp)
    have ht : 0 ≤ sumQty t := ih (fun x hx => h x (by simp [hx]))
    simp only [sumQty, List.map_cons, List.sum_cons]
    have : sumQty t = (t.map (·.quantity)).sum := rfl
    omega

/-- The deduction plan of the FEFO loop: every recorded deduction is
positive and bounded by its batch's quantity, and the plan covers the full
request whenever the walked batches hold enough in total. -/
theorem deductLoop_plan :
    ∀ (avail : List StockBatch) (q : Int) (upd : List StockBatch),
      (∀ b ∈ avail, 0 < b.quantity) → 0 ≤ q → q ≤ sumQty avail →
      (∀ d ∈ (deductLoop avail q upd).2, 0 < d.quantity)
        ∧ sumDed (deductLoop avail q upd).2 = q
        ∧ (∀ d ∈ (deductLoop avail q upd).2,
            ∃ b ∈ avail, d.batchId = b.id ∧ d.quantity ≤ b.quantity) := by
  intro avail
  induction avail with
  | nil =>
    intro q upd _ hq hle
    have hq0 : q = 0 := by
      simp only [sumQty, List.map_nil, List.sum_nil] at hle
      omega
    subst hq0
    exact ⟨(by intro d hd; cases hd), rfl, (by intro d hd; cases hd)⟩
  | cons b rest ih =>
    intro q upd hpos hq hle
    by_cases hq0 : q ≤ 0
    · have hqz : q = 0 := le_antisymm hq0 hq
      subst hqz
      simp only [deductLoop, if_pos (le_refl (0 : Int))]
      exact ⟨(by intro d hd; cases hd), rfl, (by intro d hd; cases hd)⟩
    · simp only [deductLoop, if_neg hq0]
      have hb : 0 < b.quantity := hpos b (by simp)
      have hrestpos : ∀ x ∈ rest, 0 < x.quantity := fun x hx => hpos x (by simp [hx])
      have hrest0 : 0 ≤ sumQty rest := sumQty_nonneg rest hrestpos
      have hsum : sumQty (b :: rest) = b.quantity + sumQty rest := by
        simp [sumQty]
      have hd1 : 0 ≤ q - min b.quantity q := by omega
      have hd2 : q - min b.quantity q ≤ sumQty rest := by omega
      have hrec := ih (q - min b.quantity q) (decQty upd b.id (min b.quantity q))
        hrestpos hd1 hd2
      constructor
      · intro d hd
        simp only [List.mem_cons] at hd
        rcases hd with hd | hd
        · subst hd
          simp only []
          omega
        · exact hrec.1 d hd
      constructor
      · simp only [sumDed, List.map_cons, List.sum_cons]
        have : sumDed (deductLoop rest (q - min b.quantity q)
            (decQty upd b.id (min b.quantity q))).2 = q - min b.quantity q := hrec.2.1
        simp only [sumDed] at this
        omega
      · intro d hd
        simp only [List.mem_cons] at hd
        rcases hd with hd | hd
        · subst hd
          exact ⟨b, by simp, rfl, by simp⟩
        · obtain ⟨x, hx, h1, h2⟩ := hrec.2.2 d hd
          exact ⟨x, by simp [hx], h1, h2⟩

end Store

namespace Ret

/-- The contribution of one return's item list to a sale item's returned
total. -/
def rowSum (items : List ReturnItemRow) (sid : String) : Int :=
  ((items.filter (fun it => it.sale_item_id == sid)).map (·.quantity)).sum

/-- Unfolding `getReturnedQuantity` one return at a time. -/
theorem getReturnedQuantity_cons (r : ReturnRow) (rest : List ReturnRow)
    (sid : String) :
    getReturnedQuantity (r :: rest) sid
      = rowSum r.items sid + getReturnedQuantity rest sid := by
  simp [getReturnedQuantity, rowSum]

/-- Every committed return line originates from a selection entry with a
positive value. -/
theorem mem_buildReturnItems (s : List SaleItemView) (sel : List (String × Int))
    (ri : ReturnItemRow) (h : ri ∈ buildReturnItems s sel) :
    ∃ p ∈ sel, ri.sale_item_id = p.1 ∧ ri.quantity = p.2 ∧ 0 < p.2 := by
  obtain ⟨p, hp, hfp⟩ := List.mem_filterMap.mp h
  refine ⟨p, hp, ?_⟩
  cases hfind : s.find? (fun it => it.id == p.1) with
  | none => rw [hfind] at hfp; cases hfp
  | some it0 =>
    rw [hfind] at hfp
    by_cases hle : (p.2 : Int) ≤ 0
    · rw [if_pos hle] at hfp; cases hfp
    · rw [if_neg hle] at hfp
      cases hfp
      exact ⟨rfl, rfl, by omega⟩

/-- A selection with no entry for a sale item contributes nothing to it. -/
theorem rowSum_build_of_no_key (s : List SaleItemView) (sel : List (String × Int))
    (sid : String) (h : ∀ p ∈ sel, p.1 ≠ sid) :
    rowSum (buildReturnItems s sel) sid = 0 := by
  have hfil : (buildReturnItems s sel).filter (fun it => it.sale_item_id == sid) = [] := by
    rw [List.filter_eq_nil_iff]
    intro ri hri
    obtain ⟨p, hp, h1, _, _⟩ := mem_buildReturnItems s sel ri hri
    simp only [beq_iff_eq]
    rw [h1]
    exact h p hp
  simp [rowSum, hfil]

/-- A reachable selection contributes at most the remaining returnable
quantity of each sale item (given that prior returns do not already exceed
the sold quantity). -/
theorem rowSum_build_le (s : List SaleItemView) (returns : List ReturnRow) :
    ∀ sel : List (String × Int), ((sel.map (·.1)).Nodup) →
      ValidSelection s returns sel → ((s.map (·.id)).Nodup) →
      ∀ it ∈ s, getReturnedQuantity returns it.id ≤ it.quantity →
        rowSum (buildReturnItems s sel) it.id
          ≤ it.quantity - getReturnedQuantity returns it.id := by
  intro sel
  induction sel with
  | nil =>
    intro _ _ _ it _ hprior
    simp only [buildReturnItems, List.filterMap_nil, rowSum, List.filter_nil,
      List.map_nil, List.sum_nil]
    omega
  | cons p rest ih =>
    intro hkeys hvalid hids it hit hprior
    have hkeys2 : ((rest.map (·.1)).Nodup) := (List.nodup_cons.mp hkeys).2
    have hvalid2 : ValidSelection s returns rest := fun x hx => hvalid x (by simp [hx])
    have hrec := ih hkeys2 hvalid2 hids it hit hprior
    simp only [buildReturnItems, List.filterMap_cons]
    cases hfind : s.find? (fun x => x.id == p.1) with
    | none =>
      exact hrec
    | some it0 =>
      by_cases hle : (p.2 : Int) ≤ 0
      · rw [if_pos hle]
        exact hrec
      · rw [if_neg hle]
        by_cases hkey : p.1 = it.id
        · have hnokey : ∀ x ∈ rest, x.1 ≠ it.id := by
            intro x hx hEq
            have : p.1 ∈ rest.map (·.1) := by
              rw [hkey, ← hEq]
              exact List.mem_map_of_mem (·.1) hx
            exact (List.nodup_cons.mp hkeys).1 this
          have hz : rowSum (buildReturnItems s rest) it.id = 0 :=
            rowSum_build_of_no_key s rest it.id hnokey
          have hhead : ((⟨p.1, p.2⟩ : ReturnItemRow).sale_item_id == it.id) = true :=
            beq_iff_eq.mpr hkey
          change rowSum (({ sale_item_id := p.1, quantity := p.2 } : ReturnItemRow)
            :: buildReturnItems s rest) it.id ≤ _
          simp only [rowSum, List.filter_cons, hhead, if_pos, List.map_cons, List.sum_cons]
          have hz2 : ((List.filter (fun x => x.sale_item_id == it.id)
              (buildReturnItems s rest)).map (·.quantity)).sum = 0 := hz
          obtain ⟨it1, hit1, hid1, hbound⟩ := hvalid p (by simp)
          have heq1 : it1 = it := mem_eq_of_nodup_key (·.id) s it1 it hids hit1 hit
            (by show it1.id = it.id; rw [hid1, hkey])
          subst heq1
          omega
        · have hhead : ((⟨p.1, p.2⟩ : ReturnItemRow).sale_item_id == it.id) = false :=
            beq_eq_false_iff_ne.mpr hkey
          simp only [rowSum, List.filter_cons, hhead]
          exact hrec

/-- The guarded quantity input preserves selection validity. -/
theorem validSelection_update (s : List SaleItemView) (returns : List ReturnRow)
    (sel : List (String × Int)) (item : SaleItemView) (v : Int)
    (hitem : item ∈ s) (hvalid : ValidSelection s returns sel) :
    ValidSelection s returns (updateReturnSelection returns sel item v) := by
  unfold updateReturnSelection
  by_cases h1 : v < 0
  · rw [if_pos h1]; exact hvalid
  · rw [if_neg h1]
    by_cases h2 : item.quantity - getReturnedQuantity returns item.id < v
    · rw [if_pos h2]; exact hvalid
    · rw [if_neg h2]
      intro p hp
      simp only [setSelection, List.mem_cons] at hp
      rcases hp with hp | hp
      · subst hp
        exact ⟨item, hitem, rfl, by omega⟩
      · exact hvalid p (List.mem_of_mem_filter hp)

/-- The guarded quantity input preserves distinctness of selection keys. -/
theorem keys_nodup_update (returns : List ReturnRow) (sel : List (String × Int))
    (item : SaleItemView) (v : Int) (h : (sel.map (·.1)).Nodup) :
    (((updateReturnSelection returns sel item v).map (·.1)).Nodup) := by
  unfold updateReturnSelection
  by_cases h1 : v < 0
  · rw [if_pos h1]; exact h
  · rw [if_neg h1]
    by_cases h2 : item.quantity - getReturnedQuantity returns item.id < v
    · rw [if_pos h2]; exact h
    · rw [if_neg h2]
      simp only [setSelection, List.map_cons]
      refine List.nodup_cons.mpr ⟨?_, ?_⟩
      · intro hmem
        obtain ⟨p, hp, hEq⟩ := List.mem_map.mp hmem
        have := List.of_mem_filter hp
        simp only [bne_iff_ne, ne_eq] at this
        exact this hEq
      · exact List.Nodup.sublist ((List.filter_sublist sel).map (·.1)) h

end Ret

/-! ### Concrete fixtures used by witnesses and counterexamples -/

namespace Ex

/-- Batch B1: 5 units, earlier expiry (day 10 stands for 2025-01-10). -/
def b1 : Store.StockBatch :=
  { id := "B1", productId := "P", batchNumber := "N1", quantity := 5,
    costPrice := 2, sellingPrice := 3, expiryDate := 10, purchaseDate := 1,
    supplier := "S" }

/-- Batch B2: 10 units, later expiry (day 32 stands for 2025-02-01). -/
def b2 : Store.StockBatch :=
  { id := "B2", productId := "P", batchNumber := "N2", quantity := 10,
    costPrice := 2, sellingPrice := 3, expiryDate := 32, purchaseDate := 1,
    supplier := "S" }

/-- The product owning the two sample batches. -/
def prodP : Store.Product :=
  { id := "P", name := "Panadol", barcode := "111" }

/-- A store state holding B1 and B2 (listed out of expiry order on purpose,
so allocation exercises the FEFO sort). -/
def st0 : Store.State :=
  { products := [prodP], sales := [], stockPurchases := [],
    stockBatches := [b2, b1] }

/-- A cart line requesting 8 units of the product. -/
def item8 : Store.SaleItem :=
  { productId := "P", productName := "Panadol", quantity := 8, unitPrice := 3,
    total := 24, batchDeductions := [] }

/-- A cart line requesting 20 units (more than the 15 on hand). -/
def item20 : Store.SaleItem :=
  { item8 with quantity := 20, total := 60 }

/-- A sample stock purchase of 7 units. -/
def purch : Store.StockPurchase :=
  { id := "", productId := "P", productName := "Panadol", batchNumber := "N3",
    quantity := 7, costPrice := 2, sellingPrice := 3, total := 14,
    supplier := "S", expiryDate := 60, purchaseDate := 2 }

/-- Hook-side batch with 10 units, cost 2. -/
def hb1 : Hook.HBatch :=
  { id := "B1", product_id := "P", batch_number := "N1", quantity := 10,
    cost_price := 2, selling_price := 3, expiry_date := 40 }

/-- Hook-side batch with 5 units, cost 7. -/
def hb2 : Hook.HBatch :=
  { id := "B2", product_id := "P", batch_number := "N2", quantity := 5,
    cost_price := 7, selling_price := 3, expiry_date := 50 }

/-- An empty-ish durable state holding one batch. -/
def db0 : Hook.DB := { sales := [], saleItems := [], batches := [hb1] }

/-- A valid cart line for 2 units. -/
def cart1 : Hook.CartItem :=
  { product_id := "P", product_name := "Panadol", quantity := 2,
    unit_price := 3, total := 6 }

/-- A cart line with non-positive quantity and price. -/
def cart0 : Hook.CartItem :=
  { product_id := "P", product_name := "Panadol", quantity := 0,
    unit_price := 0, total := 0 }

/-- A cart line for 20 units (snapshot holds 15). -/
def cart20 : Hook.CartItem :=
  { product_id := "P", product_name := "Panadol", quantity := 20,
    unit_price := 3, total := 60 }

/-- A cart line with a falsy (empty) product id. -/
def cartBad : Hook.CartItem :=
  { product_id := "", product_name := "X", quantity := 1,
    unit_price := 3, total := 3 }

/-- Snapshot function exposing only `hb1`. -/
def gab1 : String → List Hook.HBatch := fun _ => [hb1]

/-- Snapshot function exposing `hb1` and `hb2` (15 units in total). -/
def gabTwo : String → List Hook.HBatch := fun _ => [hb1, hb2]

/-- Oracle making the `sale_items` insert fail after the `sales` insert
succeeded. -/
def oFailItems : Hook.Oracle :=
  { saleInsertOk := true, itemsInsertOk := false, batchFetchOk := true,
    updateOk := fun _ => true }

/-- Hook-side product row. -/
def hp1 : Hook.HProduct := { id := "P", name := "Panadol", is_active := true }

/-- The same row after soft-disabling. -/
def hp1d : Hook.HProduct := { id := "P", name := "Panadol", is_active := false }

/-- A sale item of 5 units, as the return screen sees it. -/
def siv : Ret.SaleItemView := { id := "I1", quantity := 5 }

/-- A prior return of 2 units against that sale item. -/
def priorR : List Ret.ReturnRow :=
  [{ items := [{ sale_item_id := "I1", quantity := 2 }] }]

/-- First deduction of the sample profit item: 2 units from B1. -/
def dA : BatchDeduction :=
  { batchId := "B1", batchNumber := "N1", quantity := 2, expiryDate := 40 }

/-- Second deduction of the sample profit item: 3 units from B2. -/
def dB : BatchDeduction :=
  { batchId := "B2", batchNumber := "N2", quantity := 3, expiryDate := 50 }

/-- A sale item whose plan spans two batches with different cost prices. -/
def ritem : Hook.SaleItemRow :=
  { sale_id := "S1", product_id := "P", product_name := "Panadol",
    quantity := 5, unit_price := 10, total := 50,
    batch_deductions := [dA, dB] }

end Ex

/-! ### Claim theorems -/

/-- C5: `availableQuantity(p)` equals the sum of `quantity` over exactly the
batches of `p` with `quantity > 0` and `expiryDate >= today` — for both the
store's and the hook's `getProductStock` — whenever the data-model invariant
`quantity >= 0` holds; the embedded queries are pure functions of the batch
list, hence side-effect free. -/
theorem availableQuantity_spec_eq
    (batches : List Store.StockBatch) (hb : List Hook.HBatch) (pid : String)
    (today : Nat)
    (h1 : ∀ b ∈ batches, 0 ≤ b.quantity) (h2 : ∀ b ∈ hb, 0 ≤ b.quantity) :
    Store.getProductStock batches pid today
        = Store.specAvailableQuantity batches pid today
    ∧ Hook.getProductStock hb pid today
        = ((hb.filter (Hook.isAvailableH pid today)).map (·.quantity)).sum := by
  constructor
  · unfold Store.getProductStock Store.specAvailableQuantity
    rw [sum_filter_and_pos (fun b => b.productId == pid && decide (today ≤ b.expiryDate))
      (·.quantity) batches h1]
    have hfe : List.filter
        (fun a => a.productId == pid && decide (today ≤ a.expiryDate)
          && decide (0 < a.quantity)) batches
        = List.filter (Store.isAvailable pid today) batches := by
      apply List.filter_congr
      intro b _
      unfold Store.isAvailable
      cases b.productId == pid <;> cases decide (0 < b.quantity) <;>
        cases decide (today ≤ b.expiryDate) <;> rfl
    rw [hfe]
  · unfold Hook.getProductStock
    rw [sum_filter_and_pos (fun b => b.product_id == pid && decide (today ≤ b.expiry_date))
      (·.quantity) hb h2]
    have hfe : List.filter
        (fun a => a.product_id == pid && decide (today ≤ a.expiry_date)
          && decide (0 < a.quantity)) hb
        = List.filter (Hook.isAvailableH pid today) hb := by
      apply List.filter_congr
      intro b _
      unfold Hook.isAvailableH
      cases b.product_id == pid <;> cases decide (0 < b.quantity) <;>
        cases decide (today ≤ b.expiry_date) <;> rfl
    rw [hfe]

/-- C5 witness: the equality evaluated on the sample batch lists. -/
theorem availableQuantity_spec_eq_witness :
    Store.getProductStock [Ex.b2, Ex.b1] "P" 5
        = Store.specAvailableQuantity [Ex.b2, Ex.b1] "P" 5
    ∧ Hook.getProductStock [Ex.hb1, Ex.hb2] "P" 5
        = (([Ex.hb1, Ex.hb2].filter (Hook.isAvailableH "P" 5)).map (·.quantity)).sum :=
  availableQuantity_spec_eq [Ex.b2, Ex.b1] [Ex.hb1, Ex.hb2] "P" 5
    (by decide) (by decide)

/-- C6 (counterexample): the claim says a return attempted 48h00m01s
(172801 s) after the sale is rejected; the code computes
`differenceInHours > 48` on truncated full hours, so that return is still
eligible. -/
theorem return_window_boundary_cex :
    Ret.isReturnEligible 172801 0 = true ∧ 48 * 3600 < 172801 - 0 := by
  decide

/-- C6 (amended): a return is eligible iff strictly fewer than 49 full hours
(176400 s) have elapsed: `now - createdAt <= 48h` is eligible, but so is
everything up to one second before the 49-hour mark; in particular
+47h59m59s is eligible and rejection starts only at +49h. -/
theorem return_window_truncated_hours :
    ∀ createdAt now : Nat,
      (Ret.isReturnEligible now createdAt = true ↔ now - createdAt < 176400)
      ∧ Ret.isReturnEligible (createdAt + 172799) createdAt = true
      ∧ Ret.isReturnEligible (createdAt + 176400) createdAt = false := by
  intro c n
  refine ⟨?_, ?_, ?_⟩
  · simp [Ret.isReturnEligible, Ret.isReturnExpired, Ret.differenceInHours]
    omega
  · simp [Ret.isReturnEligible, Ret.isReturnExpired, Ret.differenceInHours]
  · simp [Ret.isReturnEligible, Ret.isReturnExpired, Ret.differenceInHours]

/-- C9 (counterexample): `deleteProduct` in the zustand store hard-deletes;
on the sample state it removes the product and both of its batches, so "no
operation removes a Product from the product collection (or removes its
batches)" is false. -/
theorem deleteProduct_removes_cex :
    (Store.deleteProduct Ex.st0 "P").products = []
    ∧ (Store.deleteProduct Ex.st0 "P").stockBatches = []
    ∧ Ex.prodP ∈ Ex.st0.products
    ∧ Ex.st0.stockBatches ≠ [] := by
  decide

/-- C9 (amended): in the Supabase-backed hook layer products are only
soft-disabled — `disableProduct` preserves the id sequence, flips
`is_active` to false on the matching row and leaves every other row
untouched — while the legacy zustand store's `deleteProduct` removes the
product (it keeps exactly the rows with a different id). -/
theorem product_soft_disable :
    ∀ (products : List Hook.HProduct) (pid : String),
      ((Hook.disableProduct products pid).map (·.id) = products.map (·.id))
      ∧ (∀ p ∈ Hook.disableProduct products pid, p.id = pid → p.is_active = false)
      ∧ (∀ p ∈ Hook.disableProduct products pid, p.id ≠ pid → p ∈ products)
      ∧ (∀ st : Store.State, (Store.deleteProduct st pid).products
          = st.products.filter (fun p => p.id != pid)) := by
  intro products pid
  refine ⟨?_, ?_, ?_, fun _ => rfl⟩
  · induction products with
    | nil => rfl
    | cons q t ih =>
      have ih2 := ih
      simp only [Hook.disableProduct, List.map_cons] at ih2 ⊢
      by_cases hq : (q.id == pid) = true
      · rw [if_pos hq]
        exact congrArg₂ List.cons rfl ih2
      · rw [if_neg hq]
        exact congrArg₂ List.cons rfl ih2
  · intro p hp hpid
    obtain ⟨q, hq, hEq⟩ := List.mem_map.mp hp
    by_cases hqid : (q.id == pid) = true
    · rw [if_pos hqid] at hEq
      rw [← hEq]
    · rw [if_neg hqid] at hEq
      subst hEq
      have hf : (q.id == pid) = false := by simpa using hqid
      exact absurd hpid (beq_eq_false_iff_ne.mp hf)
  · intro p hp hpid
    obtain ⟨q, hq, hEq⟩ := List.mem_map.mp hp
    by_cases hqid : (q.id == pid) = true
    · rw [if_pos hqid] at hEq
      exfalso
      apply hpid
      rw [← hEq]
      exact eq_of_beq hqid
    · rw [if_neg hqid] at hEq
      exact hEq ▸ hq

/-- C9 witness: the amended statement evaluated on a one-product state. -/
theorem product_soft_disable_witness :
    (Hook.disableProduct [Ex.hp1] "P").map (·.id) = [Ex.hp1].map (·.id)
    ∧ Ex.hp1d.is_active = false := by
  have h := product_soft_disable [Ex.hp1] "P"
  exact ⟨h.1, h.2.1 Ex.hp1d (by decide) (by decide)⟩

/-- C10: the reported item profit is
`(unitPrice - costPriceOfFirstDeductionBatch) * quantity`, the cost price
being read from the batch named by the first deduction, whatever the rest of
the plan contains. -/
theorem itemProfit_first_batch_cost
    (batches : List Hook.HBatch) (item : Hook.SaleItemRow) (d : BatchDeduction)
    (rest : List BatchDeduction) (b : Hook.HBatch)
    (hded : item.batch_deductions = d :: rest)
    (hid : d.batchId ≠ "")
    (hfind : batches.find? (fun x => x.id == d.batchId) = some b) :
    Report.calculateItemProfit batches item
      = (item.unit_price - b.cost_price) * (item.quantity : ℚ) := by
  simp only [Report.calculateItemProfit, hded, Report.getCostPrice]
  rw [if_neg (by simpa using hid), hfind]

/-- C10 witness: a plan spanning two batches with different cost prices (2
and 7) prices the whole line at the first batch's cost. -/
theorem itemProfit_first_batch_cost_witness :
    Report.calculateItemProfit [Ex.hb1, Ex.hb2] Ex.ritem
      = (Ex.ritem.unit_price - Ex.hb1.cost_price) * (Ex.ritem.quantity : ℚ) :=
  itemProfit_first_batch_cost [Ex.hb1, Ex.hb2] Ex.ritem Ex.dA [Ex.dB] Ex.hb1
    (by rfl) (by decide) (by rfl)

/-- C1: the FEFO walk deducts `min(batch.remaining, stillNeeded)` per batch
in expiry order until the request is met — every recorded deduction is
positive (zero contributions are omitted), bounded by its batch's quantity,
and the plan sums to the request whenever the walked batches suffice; on the
spec's example, allocating 8 from B1(5, earlier expiry) and B2(10, later
expiry) yields the plan [B1:5, B2:3] and leaves B1 = 0, B2 = 7. -/
theorem fefo_allocation_correct
    (avail : List Store.StockBatch) (q : Int) (upd : List Store.StockBatch)
    (hpos : ∀ b ∈ avail, 0 < b.quantity) (hq : 0 ≤ q)
    (hle : q ≤ Store.sumQty avail) :
    ((∀ d ∈ (Store.deductLoop avail q upd).2, 0 < d.quantity)
      ∧ Store.sumDed (Store.deductLoop avail q upd).2 = q
      ∧ (∀ d ∈ (Store.deductLoop avail q upd).2,
          ∃ b ∈ avail, d.batchId = b.id ∧ d.quantity ≤ b.quantity))
    ∧ ((Store.addSale Ex.st0 [Ex.item8] "cash" 0 5 "S1" 100).1.success = true
      ∧ ((Store.addSale Ex.st0 [Ex.item8] "cash" 0 5 "S1" 100).2.stockBatches.map
          (fun b => (b.id, b.quantity))) = [("B2", 7), ("B1", 0)]
      ∧ ((Store.addSale Ex.st0 [Ex.item8] "cash" 0 5 "S1" 100).2.sales.map
          (fun s => s.items.map (fun i => i.batchDeductions.map
            (fun d => (d.batchId, d.quantity))))) = [[[("B1", 5), ("B2", 3)]]]) :=
  ⟨Store.deductLoop_plan avail q upd hpos hq hle, by decide⟩

/-- C1 witness: the general part evaluated on the spec's two batches with a
request of 8. -/
theorem fefo_allocation_correct_witness :
    ((∀ d ∈ (Store.deductLoop [Ex.b1, Ex.b2] 8 [Ex.b2, Ex.b1]).2, 0 < d.quantity)
      ∧ Store.sumDed (Store.deductLoop [Ex.b1, Ex.b2] 8 [Ex.b2, Ex.b1]).2 = 8
      ∧ (∀ d ∈ (Store.deductLoop [Ex.b1, Ex.b2] 8 [Ex.b2, Ex.b1]).2,
          ∃ b ∈ [Ex.b1, Ex.b2], d.batchId = b.id ∧ d.quantity ≤ b.quantity))
    ∧ ((Store.addSale Ex.st0 [Ex.item8] "cash" 0 5 "S1" 100).1.success = true
      ∧ ((Store.addSale Ex.st0 [Ex.item8] "cash" 0 5 "S1" 100).2.stockBatches.map
          (fun b => (b.id, b.quantity))) = [("B2", 7), ("B1", 0)]
      ∧ ((Store.addSale Ex.st0 [Ex.item8] "cash" 0 5 "S1" 100).2.sales.map
          (fun s => s.items.map (fun i => i.batchDeductions.map
            (fun d => (d.batchId, d.quantity))))) = [[[("B1", 5), ("B2", 3)]]]) :=
  fefo_allocation_correct [Ex.b1, Ex.b2] 8 [Ex.b2, Ex.b1]
    (by decide) (by decide) (by decide)

/-- C2: when a sale line requests more than the total available across the
product's non-expired, non-depleted batches, both `addSale` (store) and
`processSale` (hook) return an insufficient-stock error reporting the
available total and leave the state completely unchanged. -/
theorem insufficient_stock_rejects :
    (∀ (st : Store.State) (item : Store.SaleItem) (pm : String) (disc : ℚ)
        (today : Nat) (sid : String) (ts : Nat),
      Store.sumQty (st.stockBatches.filter (Store.isAvailable item.productId today))
          < item.quantity →
      Store.addSale st [item] pm disc today sid ts
        = ({ success := false,
             error := some
               { productName := item.productName,
                 available := Store.sumQty (st.stockBatches.filter
                     (Store.isAvailable item.productId today)),
                 required := item.quantity },
             saleId := none }, st))
    ∧ (∀ (item : Hook.CartItem) (pm : String) (gab : String → List Hook.HBatch)
        (db : Hook.DB) (o : Hook.Oracle) (sid : String),
      item.product_id ≠ "" → item.product_name ≠ "" →
      Hook.sumQtyH (gab item.product_id) < item.quantity →
      Hook.processSale [item] pm gab db o sid
        = (some (Hook.SaleErr.insufficientStock item.product_name
            (Hook.sumQtyH (gab item.product_id))), db)) := by
  constructor
  · intro st item pm disc today sid ts hshort
    have hs : Store.sumQty (Store.sortByExpiry
        (st.stockBatches.filter (Store.isAvailable item.productId today)))
          < item.quantity := by
      rw [Store.sumQty_sortByExpiry]
      exact hshort
    simp only [Store.addSale, Store.processItems]
    rw [if_pos hs]
    rw [Store.sumQty_sortByExpiry]
  · intro item pm gab db o sid h1 h2 hshort
    have e1 : (item.product_id == "") = false := beq_eq_false_iff_ne.mpr h1
    have e2 : (item.product_name == "") = false := beq_eq_false_iff_ne.mpr h2
    have hline : Hook.allocLine gab item
        = Except.error (Hook.SaleErr.insufficientStock item.product_name
            (Hook.sumQtyH (gab item.product_id))) := by
      simp [Hook.allocLine, e1, e2, hshort]
    simp [Hook.processSale, Hook.allocAll, hline]

/-- C2 witness: requesting 20 units against 15 on hand fails reporting
available = 15 with no mutation, in both implementations. -/
theorem insufficient_stock_rejects_witness :
    Store.addSale Ex.st0 [Ex.item20] "cash" 0 5 "S1" 100
      = ({ success := false,
           error := some { productName := "Panadol", available := 15, required := 20 },
           saleId := none }, Ex.st0)
    ∧ Hook.processSale [Ex.cart20] "cash" Ex.gabTwo Ex.db0 Hook.Oracle.allOk "S1"
      = (some (Hook.SaleErr.insufficientStock "Panadol" 15), Ex.db0) := by
  constructor
  · have h := insufficient_stock_rejects.1 Ex.st0 Ex.item20 "cash" 0 5 "S1" 100 (by decide)
    exact h.trans (by decide)
  · exact (insufficient_stock_rejects.2 Ex.cart20 "cash" Ex.gabTwo Ex.db0
      Hook.Oracle.allOk "S1" (by decide) (by decide) (by decide)).trans (by decide)

/-- C3 (counterexample): the commit is not all-or-nothing — with the
`sale_items` insert failing right after the `sales` insert succeeded,
`processSale` reports failure yet a durable sale row for the attempt remains
(and no deduction was applied), contradicting "no sale record exists for
that attempt". -/
theorem sale_commit_not_atomic_cex :
    (Hook.processSale [Ex.cart1] "cash" Ex.gab1 Ex.db0 Ex.oFailItems "S1").1
        = some Hook.SaleErr.persistence
    ∧ (Hook.processSale [Ex.cart1] "cash" Ex.gab1 Ex.db0 Ex.oFailItems "S1").2.sales.length
        = Ex.db0.sales.length + 1
    ∧ (Hook.processSale [Ex.cart1] "cash" Ex.gab1 Ex.db0 Ex.oFailItems "S1").2.batches
        = Ex.db0.batches := by
  decide

/-- C3 (amended): if any line fails allocation (insufficient stock or an
invalid item), the whole sale is aborted before any write — no sale record
is created and no batch quantity changes; the all-or-nothing guarantee does
not, however, extend to persistence failures after the `sales` insert. -/
theorem sale_allocation_abort_atomic :
    ∀ (items : List Hook.CartItem) (pm : String) (gab : String → List Hook.HBatch)
      (db : Hook.DB) (o : Hook.Oracle) (sid : String) (e : Hook.SaleErr),
      Hook.allocAll gab items = .error e →
      Hook.processSale items pm gab db o sid = (some e, db) := by
  intro items pm gab db o sid e h
  simp [Hook.processSale, h]

/-- C3 witness: a two-line cart whose second line fails allocation leaves
the durable state untouched. -/
theorem sale_allocation_abort_atomic_witness :
    Hook.processSale [Ex.cart1, Ex.cart20] "cash" Ex.gab1 Ex.db0 Hook.Oracle.allOk "S1"
      = (some (Hook.SaleErr.insufficientStock "Panadol" 10), Ex.db0) :=
  sale_allocation_abort_atomic [Ex.cart1, Ex.cart20] "cash" Ex.gab1 Ex.db0
    Hook.Oracle.allOk "S1" (Hook.SaleErr.insufficientStock "Panadol" 10) (by rfl)

/-- C4 (counterexample): `updateBatchQuantity` writes the given value
unconditionally, so starting from an all-positive batch list it produces a
negative stored quantity — refuting "every operation that writes batch
quantities preserves non-negativity". -/
theorem updateBatchQuantity_negative_cex :
    (Hook.updateBatchQuantity [Ex.hb1] "B1" (-5)).map (·.quantity) = [-5]
    ∧ (∀ b ∈ [Ex.hb1], 0 < b.quantity) := by
  decide

/-- C4 (amended): sale allocation (`addSale`, given the data-model
invariants of non-negative quantities and distinct batch ids) preserves
`quantity >= 0` — equivalently, it never deducts more than a batch held —
while `updateBatchQuantity` and `addStockPurchase` preserve non-negativity
only when their quantity argument is itself non-negative, as they store it
unchecked. -/
theorem batch_quantity_nonneg_preserved :
    (∀ (st : Store.State) (items : List Store.SaleItem) (pm : String) (disc : ℚ)
        (today : Nat) (sid : String) (ts : Nat),
      (∀ b ∈ st.stockBatches, 0 ≤ b.quantity) →
      ((st.stockBatches.map (·.id)).Nodup) →
      ∀ b ∈ (Store.addSale st items pm disc today sid ts).2.stockBatches,
        0 ≤ b.quantity)
    ∧ (∀ (batches : List Hook.HBatch) (bid : String) (q : Int),
      0 ≤ q → (∀ b ∈ batches, 0 ≤ b.quantity) →
      ∀ b ∈ Hook.updateBatchQuantity batches bid q, 0 ≤ b.quantity)
    ∧ (∀ (st : Store.State) (purchase : Store.StockPurchase) (nb np : String),
      0 ≤ purchase.quantity → (∀ b ∈ st.stockBatches, 0 ≤ b.quantity) →
      ∀ b ∈ (Store.addStockPurchase st purchase nb np).stockBatches,
        0 ≤ b.quantity) := by
  refine ⟨?_, ?_, ?_⟩
  · intro st items pm disc today sid ts h0 hnd b hb
    cases hres : Store.processItems today items st.stockBatches with
    | error e =>
      simp only [Store.addSale, hres] at hb
      exact h0 b hb
    | ok r =>
      simp only [Store.addSale, hres] at hb
      exact (Store.processItems_nonneg today items st.stockBatches h0 hnd r hres).1 b hb
  · intro batches bid q hq h0 b hb
    obtain ⟨c, hc, hEq⟩ := List.mem_map.mp hb
    by_cases hcid : (c.id == bid) = true
    · rw [if_pos hcid] at hEq
      rw [← hEq]
      exact hq
    · rw [if_neg hcid] at hEq
      rw [← hEq]
      exact h0 c hc
  · intro st purchase nb np hq h0 b hb
    simp only [Store.addStockPurchase] at hb
    rcases List.mem_append.mp hb with hb | hb
    · exact h0 b hb
    · rcases List.mem_singleton.mp hb with rfl
      exact hq

/-- C4 witness: the three preservation statements evaluated on the sample
state, a valid manual update, and a 7-unit purchase. -/
theorem batch_quantity_nonneg_preserved_witness :
    (∀ b ∈ (Store.addSale Ex.st0 [Ex.item8] "cash" 0 5 "S1" 100).2.stockBatches,
      0 ≤ b.quantity)
    ∧ (∀ b ∈ Hook.updateBatchQuantity [Ex.hb1] "B1" 3, 0 ≤ b.quantity)
    ∧ (∀ b ∈ (Store.addStockPurchase Ex.st0 Ex.purch "NB" "NP").stockBatches,
      0 ≤ b.quantity) :=
  ⟨batch_quantity_nonneg_preserved.1 Ex.st0 [Ex.item8] "cash" 0 5 "S1" 100
      (by decide) (by decide),
   batch_quantity_nonneg_preserved.2.1 [Ex.hb1] "B1" 3 (by decide) (by decide),
   batch_quantity_nonneg_preserved.2.2 Ex.st0 Ex.purch "NB" "NP"
      (by decide) (by decide)⟩

/-- C7: the return screen's guarded quantity input only admits selections
within `0 < qty <= remaining` (remaining = sold minus previously returned);
any selection reachable that way keeps, after committing the return, the
total returned per sale item bounded by the quantity sold; and on the spec's
example (5 sold, 2 already returned) a request of 4 is refused while a
request of 3 is accepted and leaves remaining = 0. -/
theorem return_quantity_invariant :
    (∀ (s : List Ret.SaleItemView) (returns : List Ret.ReturnRow)
        (sel : List (String × Int)) (item : Ret.SaleItemView) (v : Int),
      item ∈ s → Ret.ValidSelection s returns sel →
      Ret.ValidSelection s returns (Ret.updateReturnSelection returns sel item v))
    ∧ (∀ (s : List Ret.SaleItemView) (returns : List Ret.ReturnRow)
        (sel : List (String × Int)),
      ((s.map (·.id)).Nodup) → ((sel.map (·.1)).Nodup) →
      Ret.ValidSelection s returns sel →
      (∀ it ∈ s, Ret.getReturnedQuantity returns it.id ≤ it.quantity) →
      ∀ it ∈ s,
        Ret.getReturnedQuantity (Ret.commitReturn returns s sel) it.id ≤ it.quantity)
    ∧ (Ret.updateReturnSelection Ex.priorR [] Ex.siv 4 = []
      ∧ Ret.updateReturnSelection Ex.priorR [] Ex.siv 3 = [("I1", 3)]
      ∧ Ret.getReturnedQuantity
          (Ret.commitReturn Ex.priorR [Ex.siv] [("I1", 3)]) "I1" = 5
      ∧ Ex.siv.quantity = 5) := by
  refine ⟨?_, ?_, by decide⟩
  · intro s returns sel item v hitem hvalid
    exact Ret.validSelection_update s returns sel item v hitem hvalid
  · intro s returns sel hids hkeys hvalid hinv it hit
    have hb := Ret.rowSum_build_le s returns sel hkeys hvalid hids it hit (hinv it hit)
    have hold := hinv it hit
    have hcons : Ret.getReturnedQuantity (Ret.commitReturn returns s sel) it.id
        = Ret.rowSum (Ret.buildReturnItems s sel) it.id
          + Ret.getReturnedQuantity returns it.id :=
      Ret.getReturnedQuantity_cons _ _ _
    omega

/-- C7 witness: the guarded update and the post-commit bound evaluated on
the 5-sold / 2-returned example. -/
theorem return_quantity_invariant_witness :
    Ret.ValidSelection [Ex.siv] Ex.priorR (Ret.updateReturnSelection Ex.priorR [] Ex.siv 3)
    ∧ (∀ it ∈ [Ex.siv],
        Ret.getReturnedQuantity (Ret.commitReturn Ex.priorR [Ex.siv] [("I1", 3)]) it.id
          ≤ it.quantity) :=
  ⟨return_quantity_invariant.1 [Ex.siv] Ex.priorR [] Ex.siv 3 (by decide)
      (fun p hp => absurd hp (List.not_mem_nil p)),
   return_quantity_invariant.2.1 [Ex.siv] Ex.priorR [("I1", 3)] (by decide) (by decide)
      (by
        intro p hp
        have hp2 : p = ("I1", 3) := List.mem_singleton.mp hp
        subst hp2
        exact ⟨Ex.siv, List.mem_singleton.mpr rfl, rfl, by decide⟩)
      (by decide)⟩

/-- C8 (counterexample): a cart line with quantity 0 and unit price 0 is not
rejected — `processSale` reports success and a sale row is persisted,
refuting "rejects, with a validation error and without any mutation, every
cart containing a line whose quantity or unit price is non-positive". -/
theorem nonpositive_line_accepted_cex :
    (Hook.processSale [Ex.cart0] "cash" (fun _ => []) Ex.db0 Hook.Oracle.allOk "S1").1
        = none
    ∧ (Hook.processSale [Ex.cart0] "cash" (fun _ => []) Ex.db0
        Hook.Oracle.allOk "S1").2.sales.length = Ex.db0.sales.length + 1
    ∧ Ex.cart0.quantity ≤ 0 ∧ Ex.cart0.unit_price ≤ 0 := by
  decide

/-- C8 (amended): empty carts are rejected in the POS checkout handler
before `processSale` is ever invoked, and `processSale` itself rejects (with
no mutation) carts whose first line has a missing product id or name; lines
with non-positive quantity or unit price are not validated and the sale goes
through. -/
theorem sale_validation_layered :
    (∀ (pm : String) (gab : String → List Hook.HBatch) (db : Hook.DB)
        (o : Hook.Oracle) (sid : String),
      Hook.handleFinalizeOrder [] pm gab db o sid = (some Hook.SaleErr.emptyCart, db))
    ∧ (∀ (item : Hook.CartItem) (rest : List Hook.CartItem) (pm : String)
        (gab : String → List Hook.HBatch) (db : Hook.DB) (o : Hook.Oracle)
        (sid : String),
      item.product_id = "" ∨ item.product_name = "" →
      Hook.processSale (item :: rest) pm gab db o sid
        = (some Hook.SaleErr.invalidItem, db)) := by
  constructor
  · intro pm gab db o sid
    rfl
  · intro item rest pm gab db o sid h
    have hcond : (item.product_id == "" || item.product_name == "") = true := by
      rcases h with h | h <;> simp [h]
    have hline : Hook.allocLine gab item = .error Hook.SaleErr.invalidItem := by
      unfold Hook.allocLine
      rw [if_pos hcond]
    have hall : Hook.allocAll gab (item :: rest) = .error Hook.SaleErr.invalidItem := by
      simp [Hook.allocAll, hline]
    simp [Hook.processSale, hall]

/-- C8 witness: the empty cart and a line with a missing product id, both
rejected without mutation. -/
theorem sale_validation_layered_witness :
    Hook.handleFinalizeOrder [] "cash" (fun _ => []) Ex.db0 Hook.Oracle.allOk "S1"
      = (some Hook.SaleErr.emptyCart, Ex.db0)
    ∧ Hook.processSale [Ex.cartBad] "cash" (fun _ => []) Ex.db0 Hook.Oracle.allOk "S1"
      = (some Hook.SaleErr.invalidItem, Ex.db0) :=
  ⟨sale_validation_layered.1 "cash" (fun _ => []) Ex.db0 Hook.Oracle.allOk "S1",
   sale_validation_layered.2 Ex.cartBad [] "cash" (fun _ => []) Ex.db0
     Hook.Oracle.allOk "S1" (Or.inl rfl)⟩

end OMS
